import Mathlib

/-!
Verification of the Epi spreadsheet-driven HTTP regression tester
(`internal/runner`, the case-resolution / dispatch / validation core).

The Go code is shallowly embedded: decoded JSON values
(`interface \x7b\x7d` after `json.Unmarshal`) become the inductive
`JsonValue`; Go maps become association lists with unique keys; a Go
run-time panic is modelled by `Option.none` (an `Option Bool` verdict of
`none` means the Go code aborts instead of returning); external
collaborators (the JSON parser of the standard library, the regexp
engine, the HTTP transport) are parameters of the embedded functions.
-/

namespace Epi

/-- Decoded JSON value, as produced by Go `json.Unmarshal` into
`interface \x7b\x7d`: JSON null decodes to the nil interface, numbers to
`float64` (modelled as `Rat`), objects to `map[string]interface \x7b\x7d`
(modelled as an association list with unique keys, in some iteration
order), arrays to slices. -/
inductive JsonValue where
  | null
  | bool (b : Bool)
  | num (q : Rat)
  | str (s : String)
  | arr (elems : List JsonValue)
  | obj (fields : List (String × JsonValue))

/-- A decoded JSON object (`map[string]interface \x7b\x7d`), in one of its
possible iteration orders. -/
abbrev GoMap := List (String × JsonValue)

/-- Go `strings.HasPrefix`, over the character data of the strings. -/
def goStartsWith (s pre : String) : Bool :=
  s.data.take pre.data.length == pre.data

/-- Go `strings.HasSuffix`, over the character data of the strings. -/
def goEndsWith (s suf : String) : Bool :=
  s.data.drop (s.data.length - suf.data.length) == suf.data && suf.data.length ≤ s.data.length

/-- A white-space character in the sense of Go `unicode.IsSpace`
(restricted to the Latin-1 range, the only one the fixtures use). -/
def isGoSpace (c : Char) : Bool :=
  [' ', '\t', '\n', Char.ofNat 11, Char.ofNat 12, '\r', Char.ofNat 133, Char.ofNat 160].contains c

/-- Go `strings.TrimSpace`. -/
def goTrimSpace (s : String) : String :=
  ⟨((s.data.dropWhile isGoSpace).reverse.dropWhile isGoSpace).reverse⟩

/-- Go `strings.ToUpper`, restricted to ASCII (method verbs are
ASCII). -/
def goToUpper (s : String) : String :=
  ⟨s.data.map fun c => if 'a' ≤ c && c ≤ 'z' then Char.ofNat (c.toNat - 32) else c⟩

/-- Go test `v == nil` on a decoded value (true for JSON null and for a
missing map entry, which yields the nil interface). -/
def JsonValue.isNull : JsonValue → Bool
  | .null => true
  | _ => false

/-- Two-value Go map lookup `v, exists := m[k]` (keys are unique after
decoding, so first match suffices). -/
def goLookup : GoMap → String → Option JsonValue
  | [], _ => none
  | (k, v) :: rest, key => if k = key then some v else goLookup rest key

/-- One-value Go map lookup `m[k]`: a missing key yields the zero value,
the nil interface, i.e. `JsonValue.null`. -/
def goIndex (m : GoMap) (k : String) : JsonValue :=
  (goLookup m k).getD .null

/-- Go `==` / `!=` on two `interface \x7b\x7d` values. Equal dynamic types
compare their values, except that comparing two maps or two slices is a
run-time panic (`none`); different dynamic types compare unequal without
panicking. -/
def goEq : JsonValue → JsonValue → Option Bool
  | .null, .null => some true
  | .bool a, .bool b => some (a == b)
  | .num a, .num b => some (a == b)
  | .str a, .str b => some (a == b)
  | .arr _, .arr _ => none
  | .obj _, .obj _ => none
  | _, _ => some false

mutual

/-- Go `reflect.DeepEqual` on decoded values: full structural equality.
(`validateValue` only reaches it with a scalar `expected`, so the
order-sensitivity of the object branch is never exercised.) -/
def goDeepEq : JsonValue → JsonValue → Bool
  | .null, .null => true
  | .bool a, .bool b => a == b
  | .num a, .num b => a == b
  | .str a, .str b => a == b
  | .arr a, .arr b => goDeepEqList a b
  | .obj a, .obj b => goDeepEqFields a b
  | _, _ => false

/-- Go `reflect.DeepEqual` on two decoded slices: elementwise. -/
def goDeepEqList : List JsonValue → List JsonValue → Bool
  | [], [] => true
  | a :: as, b :: bs => goDeepEq a b && goDeepEqList as bs
  | _, _ => false

/-- Go `reflect.DeepEqual` on two decoded objects (in matching order). -/
def goDeepEqFields : List (String × JsonValue) → List (String × JsonValue) → Bool
  | [], [] => true
  | (k1, v1) :: as, (k2, v2) :: bs => k1 == k2 && goDeepEq v1 v2 && goDeepEqFields as bs
  | _, _ => false

end

mutual

/-- The function `Runner.validateValue`: recursive strict comparison of one actual
value against one expected value. The expected side is inspected first
as object, then array, then string (regex-anchored or literal), and any
other scalar falls through to `reflect.DeepEqual`. Total: every type
mismatch returns `false`, no panic is possible here. -/
def validateValue (rm : String → String → Bool) : JsonValue → JsonValue → Bool
  | actual, .obj efields =>
      match actual with
      | .obj afields => validateFields rm afields efields
      | _ => false
  | actual, .arr es =>
      match actual with
      | .arr as => validateSlice rm as es
      | _ => false
  | actual, .str es =>
      match actual with
      | .str as =>
          if goStartsWith es "^" || goEndsWith es "$" then rm es as
          else as == es
      | _ => false
  | actual, e => goDeepEq actual e

/-- The function `Runner.validateMap`: every expected field must exist in the actual
object and recursively validate; extra actual fields are ignored. -/
def validateFields (rm : String → String → Bool) (afields : GoMap) : GoMap → Bool
  | [] => true
  | (k, ev) :: rest =>
      (match goLookup afields k with
       | none => false
       | some av => validateValue rm av ev) && validateFields rm afields rest

/-- The function `Runner.validateSlice`: the actual array must be at least as long as
the expected one and validate pointwise on the expected indices
(`len(actual) < len(expected)` fails, extra actual elements ignored). -/
def validateSlice (rm : String → String → Bool) : List JsonValue → List JsonValue → Bool
  | _, [] => true
  | [], _ :: _ => false
  | a :: as, e :: es => validateValue rm a e && validateSlice rm as es

end

/-- One iteration of the loose-mode per-key loop body of
`Runner.validateResponse` (the non-`code` branch): missing actual key
fails; a `^`/`$`-anchored expected string is regex-matched against
`actualValue.(string)` — an unchecked type assertion that panics
(`none`) when the actual value is not a string; every other expected
value is compared with Go `!=`, which panics on two maps or two
slices. -/
def looseKeyCheck (rm : String → String → Bool) (am : GoMap) (k : String)
    (ev : JsonValue) : Option Bool :=
  match goLookup am k with
  | none => some false
  | some av =>
      match ev with
      | .str es =>
          if goStartsWith es "^" || goEndsWith es "$" then
            match av with
            | .str as => some (rm es as)
            | _ => none
          else goEq av (.str es)
      | _ => goEq av ev

/-- The loose-mode loop of `Runner.validateResponse` over the expected
object in one iteration order: `code` keys are skipped, the first
failing key returns `false`, the first panicking key aborts. -/
def looseLoop (rm : String → String → Bool) (am : GoMap) : GoMap → Option Bool
  | [] => some true
  | (k, ev) :: rest =>
      if k = "code" then looseLoop rm am rest
      else
        match looseKeyCheck rm am k ev with
        | some true => looseLoop rm am rest
        | some false => some false
        | none => none

/-- The body of `Runner.validateResponse` after both bodies have been decoded:
the unconditional `code` gate (`nil` check, then Go `!=`), then either
the strict recursive `validateMap` or the loose per-top-level-key
loop. `em` is the expected map in the iteration order the loose loop
sees. -/
def validateResponseCore (rm : String → String → Bool) (am em : GoMap)
    (strict : Bool) : Option Bool :=
  if (goIndex am "code").isNull || (goIndex em "code").isNull then some false
  else
    match goEq (goIndex am "code") (goIndex em "code") with
    | none => none
    | some false => some false
    | some true =>
        if strict then some (validateFields rm am em)
        else looseLoop rm am em

/-- The function `Runner.validateResponse` from the raw body strings: a decode
failure of either body returns `false` (the expected side additionally
logs a diagnostic, a side effect not modelled). `p` is the external
`json.Unmarshal` into `map[string]interface \x7b\x7d`. -/
def validateResponse (p : String → Option GoMap) (rm : String → String → Bool)
    (actual expected : String) (strict : Bool) : Option Bool :=
  match p actual with
  | none => some false
  | some am =>
      match p expected with
      | none => some false
      | some em => validateResponseCore rm am em strict

/-! ## Case resolver (`parseRow`, `initGlobalConfig`, `findFirstBaseURL`) -/

/-- The predicate `isHTTPMethod`: the method column, trimmed and upper-cased, must be
one of the seven recognized verbs. -/
def isHTTPMethod (method : String) : Bool :=
  ["GET", "POST", "PUT", "DELETE", "PATCH", "HEAD", "OPTIONS"].contains
    (goToUpper (goTrimSpace method))

/-- Go map assignment `m[k] = v` on an association-list model: replace
the existing binding or append a new one. -/
def mapSet (m : List (String × String)) (k v : String) : List (String × String) :=
  if m.any (fun kv => kv.1 = k) then
    m.map (fun kv => if kv.1 = k then (k, v) else kv)
  else m ++ [(k, v)]

/-- The function `Runner.parseParams`: split an `&`-joined string into `key=value`
pairs; a pair that does not split on `=` into exactly two parts is
dropped; the empty string yields the empty map. -/
def parseParams (paramStr : String) : List (String × String) :=
  if paramStr = "" then []
  else
    (paramStr.splitOn "&").foldl
      (fun params pair =>
        match pair.splitOn "=" with
        | [k, v] => mapSet params k v
        | _ => params)
      []

/-- The configuration fields of `config.Config` the resolver reads. -/
structure Config where
  BaseURL : String
  Authorization : String

/-- The `Runner` state plus the spreadsheet contents: `allRows` is what
`excelize.GetRows` returns for the sheet (`findFirstBaseURL` re-reads
the same file, so it sees the same rows), including the label row that
both `Run` and `findFirstBaseURL` drop. `firstToken` / `globalHeaders`
are the one-time globals set by `initGlobalConfig`. -/
structure Runner where
  config : Config
  firstToken : String
  globalHeaders : List (String × String)
  allRows : List (List String)

/-- The base-URL column of a row as `findFirstBaseURL` tests it:
non-empty only when the row has at least 10 cells and cell 9 is
non-empty. -/
def rowBase (row : List String) : String :=
  if row.length ≥ 10 && row.getD 9 "" != "" then row.getD 9 "" else ""

/-- The upward scan of `findFirstBaseURL`: from index `i` down to `0`,
the first row (qualifying or not) with a non-empty base-URL column; `""`
when none has one. -/
def scanUp (rows : List (List String)) : Nat → String
  | 0 => rowBase (rows.getD 0 [])
  | i + 1 =>
      if rowBase (rows.getD (i + 1) []) != "" then rowBase (rows.getD (i + 1) [])
      else scanUp rows i

/-- The function `Runner.findFirstBaseURL`: drop the label row, locate the first data
row whose name cell equals the current case name, and scan upward from
it (inclusive) for a non-empty base-URL column; `""` on any failure. -/
def findFirstBaseURL (st : Runner) (currentCaseName : String) : String :=
  let rows := st.allRows.drop 1
  if rows.isEmpty then ""
  else
    match rows.findIdx? (fun row => row.length > 0 && row.getD 0 "" == currentCaseName) with
    | none => ""
    | some i => scanUp rows i

/-- The struct `model.TestCase`, the resolved case. -/
structure TestCase where
  CaseName : String
  Method : String
  Path : String
  PathParams : List (String × String)
  QueryParams : List (String × String)
  Body : String
  Headers : List (String × String)
  Expected : String
  StrictMatch : Bool
  BaseURL : String
  Token : String
deriving DecidableEq

/-- Outcome of `Runner.parseRow` on one row: not a test case, a resolved
case, or a Go run-time panic. -/
inductive RowOutcome where
  | notCase
  | panic
  | case (tc : TestCase)
deriving DecidableEq

/-- The function `Runner.parseRow`. The guards: empty row, then at least 2 cells with
a recognized method, then at least 8 cells. Headers start from the
globals and are overlaid by the row's own header JSON when it parses
(`ph` is the external `json.Unmarshal` into `map[string]string`); the
base URL prefers the row's own column 9, then `findFirstBaseURL`, then
the configured default; the token prefers column 10, then the captured
first token, then the configured default. Building the `TestCase`
literal reads `row[8]` under only a `len(row) >= 8` guard, so a
qualifying row with exactly 8 cells panics with an index out of
range. -/
def parseRow (ph : String → Option (List (String × String))) (st : Runner)
    (row : List String) : RowOutcome :=
  if row.length = 0 then .notCase
  else if row.length < 2 || !isHTTPMethod (row.getD 1 "") then .notCase
  else if row.length < 8 then .notCase
  else
    let rowHeaders :=
      if row.length ≥ 7 && row.getD 6 "" != "" then (ph (row.getD 6 "")).getD []
      else []
    let headers := rowHeaders.foldl (fun m kv => mapSet m kv.1 kv.2) st.globalHeaders
    let baseURL0 :=
      if row.length ≥ 10 && row.getD 9 "" != "" then row.getD 9 ""
      else findFirstBaseURL st (row.getD 0 "")
    let baseURL := if baseURL0 = "" then st.config.BaseURL else baseURL0
    let token0 :=
      if row.length ≥ 11 && row.getD 10 "" != "" then row.getD 10 ""
      else st.firstToken
    let token := if token0 = "" then st.config.Authorization else token0
    if row.length < 9 then .panic
    else
      .case
        { CaseName := row.getD 0 ""
          Method := row.getD 1 ""
          Path := row.getD 2 ""
          PathParams := parseParams (row.getD 3 "")
          QueryParams := parseParams (row.getD 4 "")
          Body := row.getD 5 ""
          Headers := headers
          Expected := row.getD 7 ""
          StrictMatch := row.getD 8 "" = "true"
          BaseURL := baseURL
          Token := token }

/-- What `Runner.initGlobalConfig` captures from the row it stops at:
the token cell when the row has at least 11 cells (else the zero value
`""`), and the decoded global-headers cell when the row has at least 12
cells, the cell is non-empty and its JSON parses (else the empty
map). -/
def captureGlobals (ph : String → Option (List (String × String)))
    (row : List String) : String × List (String × String) :=
  ( if row.length ≥ 11 then row.getD 10 "" else ""
  , if row.length ≥ 12 && row.getD 11 "" != "" then (ph (row.getD 11 "")).getD []
    else [] )

/-- The function `Runner.initGlobalConfig` over the data rows: skip rows with fewer
than 2 cells or an unrecognized method, capture from the first remaining
row and stop. Yields `(firstToken, globalHeaders)`. -/
def initGlobalConfig (ph : String → Option (List (String × String))) :
    List (List String) → String × List (String × String)
  | [] => ("", [])
  | row :: rest =>
      if row.length < 2 || !isHTTPMethod (row.getD 1 "") then initGlobalConfig ph rest
      else captureGlobals ph row

/-- A row qualifies as a test case (all of `parseRow`'s guards): at
least 8 cells and a recognized method in cell 1. -/
def rowQualifies (row : List String) : Bool :=
  decide (row.length ≥ 8) && isHTTPMethod (row.getD 1 "")

/-- Modelled from the spec (claim side, for comparison with the code's
`findFirstBaseURL`): "the nearest preceding qualifying row's non-empty
base-URL (scan upward through included rows); else the configured
default". `specNearestQualBase rows dflt i` resolves the base URL of
the data row at index `i` whose own base-URL column is empty, by
scanning the strictly preceding data rows, nearest first, for a
qualifying row with a non-empty base-URL column. -/
def specNearestQualBase (rows : List (List String)) (dflt : String) : Nat → String
  | 0 => dflt
  | i + 1 =>
      if rowQualifies (rows.getD i []) && rowBase (rows.getD i []) != "" then
        rowBase (rows.getD i [])
      else specNearestQualBase rows dflt i

/-! ## Request executor (`executeTest`, `toCurl`) -/

/-- The parts of `http.Request` the executor touches: method, final URL
and the header map (`Header.Set` replaces, modelled by `mapSet`). -/
structure Request where
  method : String
  url : String
  headers : List (String × String)
deriving DecidableEq

/-- Outcome of the network round trip: `client.Do` error, `io.ReadAll`
error, or the full response body. -/
inductive HttpOutcome where
  | transportErr (msg : String)
  | readErr (msg : String)
  | body (s : String)

/-- External collaborators of one job execution: `http.NewRequest`
(`none` models its error return), the transport with body read, the
body JSON decoder and the regexp engine. -/
structure HttpExt where
  newRequest : String → String → Option Request
  send : Request → HttpOutcome
  parse : String → Option GoMap
  rm : String → String → Bool

/-- The struct `model.TestResult` (the wall-clock `ExecutionTime` field is not
modelled). -/
structure TestResult where
  CaseNumber : Nat
  CaseName : String
  Method : String
  Path : String
  PathParams : List (String × String)
  QueryParams : List (String × String)
  RequestBody : String
  Success : Bool
  ActualResult : String
  ExpectedResult : String
  Error : String
  Curl : String
deriving DecidableEq

/-- URL construction in `executeTest`: base URL plus path, `\x7bname\x7d`
placeholders replaced by direct text substitution, query parameters
appended as an `&`-joined `key=value` string. -/
def buildURL (tc : TestCase) : String :=
  let url := tc.BaseURL ++ tc.Path
  let url := tc.PathParams.foldl
    (fun u kv => u.replace ("\x7b" ++ kv.1 ++ "\x7d") kv.2) url
  if tc.QueryParams.length > 0 then
    url ++ "?" ++ String.intercalate "&" (tc.QueryParams.map (fun kv => kv.1 ++ "=" ++ kv.2))
  else url

/-- Header assembly in `executeTest`: JSON content type always, the
authorization header only for a non-empty token, case headers last
(overriding both). -/
def applyHeaders (req : Request) (tc : TestCase) : Request :=
  let hs := mapSet req.headers "Content-Type" "application/json"
  let hs := if tc.Token != "" then mapSet hs "Authorization" tc.Token else hs
  let hs := tc.Headers.foldl (fun m kv => mapSet m kv.1 kv.2) hs
  { req with headers := hs }

/-- The function `Runner.toCurl`: the reproducible command-line equivalent — method,
headers, body, final URL. -/
def toCurl (req : Request) (body : String) : String :=
  let curl := "curl -X " ++ req.method
  let curl := req.headers.foldl
    (fun c kv => c ++ " -H \x27" ++ kv.1 ++ ": " ++ kv.2 ++ "\x27") curl
  let curl := if body != "" then curl ++ " -d \x27" ++ body ++ "\x27" else curl
  curl ++ " \x27" ++ req.url ++ "\x27"

/-- The function `Runner.executeTest` for one job. `none` models a Go panic: when
`http.NewRequest` fails, the error branch calls `toCurl` on the nil
request (a nil-pointer dereference), and a completed validation can
itself panic in loose mode. On a transport or read failure the partial
result (with the already-computed curl string) is returned. -/
def executeTest (ext : HttpExt) (caseNumber : Nat) (tc : TestCase) : Option TestResult :=
  let base : TestResult :=
    { CaseNumber := caseNumber
      CaseName := tc.CaseName
      Method := tc.Method
      Path := tc.Path
      PathParams := tc.PathParams
      QueryParams := tc.QueryParams
      RequestBody := tc.Body
      Success := false
      ActualResult := ""
      ExpectedResult := tc.Expected
      Error := ""
      Curl := "" }
  let url := buildURL tc
  match ext.newRequest tc.Method url with
  | none => none
  | some req0 =>
      let req := applyHeaders req0 tc
      let curl := toCurl req tc.Body
      match ext.send req with
      | .transportErr e =>
          some { base with Curl := curl, Success := false, Error := "执行请求失败: " ++ e }
      | .readErr e =>
          some { base with Curl := curl, Success := false, Error := "读取响应失败: " ++ e }
      | .body b =>
          match validateResponse ext.parse ext.rm b tc.Expected tc.StrictMatch with
          | none => none
          | some ok => some { base with Curl := curl, ActualResult := b, Success := ok }

/-! ## Result collator (`sortResults`) -/

/-- One enqueued job (`struct\x7bcaseNum int; row []string\x7d`). -/
structure Job where
  caseNum : Nat
  row : List String

/-- One pass of the inner loop of `Runner.sortResults` with `a[i] = x`:
whenever the current front exceeds `a[j]` they swap, so the running
minimum travels to the front and each swapped-out front lands at
position `j`. Returns the final front value and the rewritten tail. -/
def swapScan (x : TestResult) : List TestResult → TestResult × List TestResult
  | [] => (x, [])
  | y :: ys =>
      if x.CaseNumber > y.CaseNumber then
        ((swapScan y ys).1, x :: (swapScan y ys).2)
      else
        ((swapScan x ys).1, y :: (swapScan x ys).2)

/-- The outer loop of `Runner.sortResults`, fuelled by the list length
(the Go loop runs one inner pass per position). -/
def sortResultsAux : Nat → List TestResult → List TestResult
  | 0, l => l
  | _ + 1, [] => []
  | fuel + 1, x :: xs => (swapScan x xs).1 :: sortResultsAux fuel (swapScan x xs).2

/-- The function `Runner.sortResults`: the in-place exchange sort by case number,
as a function on the result list. -/
def sortResults (results : List TestResult) : List TestResult :=
  sortResultsAux results.length results

/-! ## Concrete fixtures used by the claim theorems -/

/-- An arbitrary concrete regexp engine (the inputs below never reach
it, or its value is irrelevant). -/
def rm0 : String → String → Bool := fun _ _ => false

/-- A concrete per-row-header JSON decoder; the rows below carry no
header JSON, so it is never consulted. -/
def phNone : String → Option (List (String × String)) := fun _ => none

/-- Decoded actual body of the spec's loose-vs-strict example. -/
def amC1 : GoMap :=
  [("code", .num 0), ("data", .obj [("id", .num 1), ("extra", .str "x")])]

/-- Decoded expected template of the spec's loose-vs-strict example. -/
def emC1 : GoMap := [("code", .num 0), ("data", .obj [("id", .num 1)])]

/-- Decoded actual body with a non-string value under `x`. -/
def amC2 : GoMap := [("code", .num 0), ("x", .num 1)]

/-- Decoded expected template with a regex-anchored string under `x`. -/
def emC2 : GoMap := [("code", .num 0), ("x", .str "^a")]

/-- A concrete body decoder mapping the body strings `A` and `E` to the
maps above (as `json.Unmarshal` would for the corresponding JSON). -/
def pC2 : String → Option GoMap := fun s =>
  if s = "A" then some amC2 else if s = "E" then some emC2 else none

/-- One iteration order of an expected map with a nested-object key
`a` and a scalar key `b`. -/
def emOrd1 : GoMap := [("code", .num 0), ("a", .obj [("x", .num 1)]), ("b", .num 5)]

/-- The other iteration order of the same decoded map. -/
def emOrd2 : GoMap := [("code", .num 0), ("b", .num 5), ("a", .obj [("x", .num 1)])]

/-- An actual body whose `a` is an object (panic on Go `!=`) and whose
`b` mismatches (verdict `false`). -/
def amOrd : GoMap := [("code", .num 0), ("a", .obj []), ("b", .num 6)]

/-- Data row 0: qualifying, with base-URL column `http://a`. -/
def r1 : List String := ["a", "GET", "/", "", "", "", "", "e", "f", "http://a"]

/-- Data row 1: NOT qualifying (method cell `note`), but with base-URL
column `http://x`. -/
def r2 : List String := ["junk", "note", "", "", "", "", "", "", "", "http://x"]

/-- Data row 2: qualifying, 9 cells, base-URL column empty. -/
def r3 : List String := ["c", "GET", "/", "", "", "", "", "e", "f"]

/-- Runner state for the base-URL counterexample: default base URL
`http://default`, sheet = label row plus `r1, r2, r3`. -/
def st3 : Runner :=
  { config := { BaseURL := "http://default", Authorization := "authD" }
    firstToken := ""
    globalHeaders := []
    allRows := [["h"], r1, r2, r3] }

/-- The case `parseRow` resolves for `r3` in state `st3`. -/
def tcC3 : TestCase :=
  { CaseName := "c", Method := "GET", Path := "/", PathParams := [], QueryParams := []
    Body := "", Headers := [], Expected := "e", StrictMatch := false
    BaseURL := "http://x", Token := "authD" }

/-- A row with a recognized method but only 2 cells: `initGlobalConfig`
stops on it, yet it does not qualify as a test case. -/
def rShort : List String := ["a", "GET"]

/-- A fully qualifying row with token column `TOK`. -/
def rFull : List String := ["b", "GET", "/p", "", "", "", "", "e", "", "", "TOK"]

/-- A qualifying row placed after `rFull`, with a different token. -/
def rPost : List String := ["c", "POST", "/q", "", "", "", "", "e", "", "", "TOK2"]

/-- The test case whose execution the C7 theorems evaluate. Its method
cell ` GET ` qualifies (trimmed, upper-cased) but is stored raw, which
is how `http.NewRequest` can reject it. -/
def tc7 : TestCase :=
  { CaseName := "t", Method := " GET ", Path := "/p", PathParams := [], QueryParams := []
    Body := "", Headers := [], Expected := "e", StrictMatch := true
    BaseURL := "http://d", Token := "tk" }

/-- Externals for which request construction fails (as `http.NewRequest`
does for a method containing spaces). -/
def extNil : HttpExt :=
  { newRequest := fun _ _ => none
    send := fun _ => .body ""
    parse := fun _ => none
    rm := rm0 }

/-- Externals for which request construction succeeds and the transport
fails. -/
def extRefused : HttpExt :=
  { newRequest := fun m u => some { method := m, url := u, headers := [] }
    send := fun _ => .transportErr "connection refused"
    parse := fun _ => none
    rm := rm0 }

/-- A qualifying row with exactly 8 cells: the strict-flag column is
absent. -/
def row8 : List String := ["a", "GET", "/p", "", "", "", "", "e"]

/-- Qualifying rows whose strict-flag cells are `TRUE`, `True`,
`\x20true` and `true`. -/
def rowTRUE : List String := ["a", "GET", "/p", "", "", "", "", "e", "TRUE"]

/-- Strict-flag cell `True`. -/
def rowTitle : List String := ["a", "GET", "/p", "", "", "", "", "e", "True"]

/-- Strict-flag cell ` true` (leading whitespace). -/
def rowSpace : List String := ["a", "GET", "/p", "", "", "", "", "e", " true"]

/-- Strict-flag cell exactly `true`. -/
def rowTrue : List String := ["a", "GET", "/p", "", "", "", "", "e", "true"]

/-- Runner state for the strict-flag evaluations: empty data sheet
apart from a label row, so base URL and token fall back to the
configured defaults. -/
def st10 : Runner :=
  { config := { BaseURL := "http://d", Authorization := "authD" }
    firstToken := ""
    globalHeaders := []
    allRows := [["h"]] }

/-- A result-producing job execution for the collator witness: the
result's case number echoes the job's. -/
def exec8 : Job → TestResult := fun j =>
  { CaseNumber := j.caseNum, CaseName := "", Method := "", Path := ""
    PathParams := [], QueryParams := [], RequestBody := "", Success := true
    ActualResult := "", ExpectedResult := "", Error := "", Curl := "" }

/-- Two jobs with distinct case numbers, out of order. -/
def jobs8 : List Job := [{ caseNum := 3, row := [] }, { caseNum := 2, row := [] }]

/-- The strict flag of a resolved case, when the row resolved to one. -/
def strictOf : RowOutcome → Option Bool
  | .case tc => some tc.StrictMatch
  | _ => none

/-- The resolved base URL of a resolved case, when the row resolved to
one. -/
def baseURLOf : RowOutcome → Option String
  | .case tc => some tc.BaseURL
  | _ => none

/-- A lone 9-cell qualifying data row with empty base column, for the
C3 witness. -/
def rW : List String := ["a", "GET", "/", "", "", "", "", "e", "f"]

/-- Runner state whose sheet holds only the label row and `rW`. -/
def stW : Runner :=
  { config := { BaseURL := "http://d", Authorization := "authD" }
    firstToken := ""
    globalHeaders := []
    allRows := [["h"], rW] }

/-- The case `parseRow` resolves for `rW` in state `stW` (base URL from
the configured default). -/
def tcW : TestCase :=
  { CaseName := "a", Method := "GET", Path := "/", PathParams := [], QueryParams := []
    Body := "", Headers := [], Expected := "e", StrictMatch := false
    BaseURL := "http://d", Token := "authD" }

/-- Actual body for the verdict-agreement witness: `a` mismatches. -/
def amW : GoMap := [("code", .num 0), ("a", .num 2)]

/-- One iteration order of the witness expected map. -/
def em1W : GoMap := [("code", .num 0), ("a", .num 1)]

/-- The other iteration order of the witness expected map. -/
def em2W : GoMap := [("a", .num 1), ("code", .num 0)]

/-! ## Claims about the validator: concrete evaluations -/

/-- C1: the spec states that in loose mode a matched top-level key's
value is still fully recursively validated, and that on expected
`code:0, data:(id:1)` versus actual `code:0, data:(id:1, extra:x)` both
modes pass. On the code, strict mode passes, but loose mode compares
the nested `data` objects with Go `!=`, which panics on two values of
map type — the loose evaluation aborts (`none`) instead of passing, for
every regexp engine. -/
theorem c1_loose_example_strict_passes_loose_panics :
    ∀ rm : String → String → Bool,
      validateResponseCore rm amC1 emC1 true = some true ∧
      validateResponseCore rm amC1 emC1 false = none := by
  intro rm
  exact ⟨rfl, rfl⟩

/-- C2: the spec states the validator totally returns a verdict for
every pair of body strings and mode. On the code, in loose mode a
regex-anchored expected string meets the unchecked type assertion
`actualValue.(string)`: with actual `code:0, x:1` (body string `A`)
against expected `code:0, x:"^a"` (body string `E`) the evaluation
aborts (`none`) instead of producing a verdict, for every regexp
engine. -/
theorem c2_regex_nonstring_actual_panics :
    ∀ rm : String → String → Bool,
      validateResponse pC2 rm "A" "E" false = none := by
  intro rm
  rfl

/-- C10: a qualifying row with exactly 8 cells passes the
`len(row) >= 8` guard but the `TestCase` literal reads `row[8]`, an
index out of range — `parseRow` panics instead of resolving the case to
loose mode. For rows that do have a strict-flag cell, the flag is true
iff the cell is exactly the lowercase `true`: `TRUE`, `True` and
`\x20true` all resolve to loose mode. -/
theorem c10_strict_flag_eval :
    parseRow phNone st10 row8 = .panic ∧
    strictOf (parseRow phNone st10 rowTRUE) = some false ∧
    strictOf (parseRow phNone st10 rowTitle) = some false ∧
    strictOf (parseRow phNone st10 rowSpace) = some false ∧
    strictOf (parseRow phNone st10 rowTrue) = some true := by
  refine ⟨by decide, by decide, by decide, by decide, by decide⟩

/-- C3 counterexample: in state `st3`, the data row `r3` (index 2, base
column empty) resolves to base URL `http://x`, taken from the
NON-qualifying row `r2`; the nearest preceding qualifying row's
non-empty base URL — what the claim prescribes — is `r1`'s `http://a`.
The code scans all rows, not only qualifying ones. -/
theorem c3_base_url_cex :
    parseRow phNone st3 r3 = .case tcC3 ∧
    tcC3.BaseURL = "http://x" ∧
    rowBase r3 = "" ∧
    (st3.allRows.drop 1).getD 2 [] = r3 ∧
    rowQualifies r2 = false ∧
    specNearestQualBase (st3.allRows.drop 1) st3.config.BaseURL 2 = "http://a" ∧
    ("http://x" : String) ≠ "http://a" := by
  refine ⟨by decide, by decide, by decide, by decide, by decide, by decide, by decide⟩

/-- C4 counterexample: `initGlobalConfig` stops at `rShort`, a row with
a recognized method but only 2 cells — a row that does NOT qualify as a
test case — and captures nothing, while the first row qualifying as a
test case, `rFull`, carries token `TOK`. The claim's globals
(`TOK`) differ from the code's (`""`). -/
theorem c4_globals_cex :
    initGlobalConfig phNone [rShort, rFull] = ("", []) ∧
    rowQualifies rShort = false ∧
    rowQualifies rFull = true ∧
    rFull.getD 10 "" = "TOK" ∧
    ("" : String) ≠ "TOK" := by
  refine ⟨by decide, by decide, by decide, by decide, by decide⟩

/-- C7: the spec states the executor always records a reproducible
command-line equivalent, independent of outcome. On the code, when
request construction fails, the error branch calls `toCurl` on the nil
request and panics (`none`): no result, and no command string, is
produced. When construction succeeds and the transport fails, the
result does carry the full command string. -/
theorem c7_curl_on_failure :
    executeTest extNil 2 tc7 = none ∧
    (executeTest extRefused 2 tc7).map TestResult.Curl =
      some ("curl -X  GET  -H \x27Content-Type: application/json\x27" ++
        " -H \x27Authorization: tk\x27 \x27http://d/p\x27") ∧
    (executeTest extRefused 2 tc7).map TestResult.Success = some false := by
  refine ⟨by decide, by decide, by decide⟩

/-- C9 counterexample: the spec states identical validator inputs
always yield the identical verdict. The decoded expected map
`code:0, a:(x:1), b:5` has iteration orders `emOrd1` and `emOrd2` (a
permutation of the same unique-key map); against the same actual body,
one order aborts in the `a` comparison (Go `!=` on two maps) while the
other returns the verdict `false` from the `b` mismatch first. -/
theorem c9_iteration_order_cex :
    emOrd1.Perm emOrd2 ∧
    (emOrd1.map Prod.fst).Nodup ∧
    validateResponseCore rm0 amOrd emOrd1 false = none ∧
    validateResponseCore rm0 amOrd emOrd2 false = some false ∧
    (none : Option Bool) ≠ some false := by
  refine ⟨List.Perm.cons _ (List.Perm.swap _ _ _), by decide, by decide, by decide, by decide⟩

/-- C5: in both modes, a successful validation requires the `code`
field to be non-nil in both decoded bodies (present and non-null) and
the two decoded values to compare equal — the gate sits before any
mode-specific comparison, so the statement holds for every mode
flag. -/
theorem c5_code_gate_necessary :
    ∀ (rm : String → String → Bool) (am em : GoMap) (strict : Bool),
      validateResponseCore rm am em strict = some true →
      (goIndex am "code").isNull = false ∧
      (goIndex em "code").isNull = false ∧
      goEq (goIndex am "code") (goIndex em "code") = some true := by
  intro rm am em strict h
  unfold validateResponseCore at h
  split at h
  · exact absurd h (by simp)
  · rename_i hnull
    rw [Bool.or_eq_true] at hnull
    push_neg at hnull
    split at h
    · exact absurd h (by simp)
    · exact absurd h (by simp)
    · rename_i heq
      exact ⟨Bool.not_eq_true _ ▸ hnull.1, Bool.not_eq_true _ ▸ hnull.2, heq⟩

/-- Witness for `c5_code_gate_necessary` at a concrete passing
input. -/
theorem c5_code_gate_witness :
    validateResponseCore rm0 [("code", JsonValue.num 0)] [("code", JsonValue.num 0)] true
        = some true ∧
    (goIndex [("code", JsonValue.num 0)] "code").isNull = false ∧
    (goIndex [("code", JsonValue.num 0)] "code").isNull = false ∧
    goEq (goIndex [("code", JsonValue.num 0)] "code")
      (goIndex [("code", JsonValue.num 0)] "code") = some true :=
  ⟨rfl, c5_code_gate_necessary rm0 _ _ true rfl⟩

/-- C6: validating an expected array against an actual array passes iff
the actual is at least as long and every expected index validates
recursively against the actual element at that index (extra trailing
actual elements ignored); in particular expected `[1,2]` vs actual
`[1,2,3]` passes and expected `[1,2,3]` vs actual `[1,2]` fails. -/
theorem c6_array_rule :
    (∀ (rm : String → String → Bool) (as es : List JsonValue),
        validateSlice rm as es = true ↔
          es.length ≤ as.length ∧
            ((as.zip es).all fun p => validateValue rm p.1 p.2) = true) ∧
    (∀ rm : String → String → Bool,
        validateSlice rm [.num 1, .num 2, .num 3] [.num 1, .num 2] = true) ∧
    (∀ rm : String → String → Bool,
        validateSlice rm [.num 1, .num 2] [.num 1, .num 2, .num 3] = false) := by
  refine ⟨?_, fun rm => rfl, fun rm => rfl⟩
  intro rm as es
  induction es generalizing as with
  | nil => cases as <;> simp [validateSlice]
  | cons e es ih =>
    cases as with
    | nil => simp [validateSlice]
    | cons a as =>
      simp only [validateSlice, List.zip_cons_cons, List.all_cons, List.length_cons,
        Bool.and_eq_true, ih, Nat.succ_le_succ_iff]
      tauto

/-- One inner pass rewrites the tail without changing its length. -/
theorem swapScan_length (x : TestResult) (l : List TestResult) :
    (swapScan x l).2.length = l.length := by
  induction l generalizing x with
  | nil => rfl
  | cons y ys ih =>
    simp only [swapScan]
    split <;> simp [ih]

/-- One inner pass permutes front-plus-tail. -/
theorem swapScan_perm (x : TestResult) (l : List TestResult) :
    ((swapScan x l).1 :: (swapScan x l).2).Perm (x :: l) := by
  induction l generalizing x with
  | nil => simp [swapScan]
  | cons y ys ih =>
    simp only [swapScan]
    split
    · exact (List.Perm.swap x _ _).trans ((ih y).cons x)
    · exact ((List.Perm.swap y _ _).trans ((ih x).cons y)).trans (List.Perm.swap _ _ _)

/-- After one inner pass the new front is minimal among the original
elements. -/
theorem swapScan_min (x : TestResult) (l : List TestResult) :
    ∀ z ∈ x :: l, (swapScan x l).1.CaseNumber ≤ z.CaseNumber := by
  induction l generalizing x with
  | nil =>
    intro z hz
    rw [List.mem_singleton] at hz
    subst hz
    exact le_refl _
  | cons y ys ih =>
    intro z hz
    simp only [swapScan]
    split
    · rename_i hgt
      rcases List.mem_cons.mp hz with rfl | hz'
      · exact le_trans (ih y y (List.mem_cons_self y ys)) (le_of_lt hgt)
      · exact ih y z hz'
    · rename_i hle
      rcases List.mem_cons.mp hz with rfl | hz'
      · exact ih z z (List.mem_cons_self z ys)
      · rcases List.mem_cons.mp hz' with rfl | hz''
        · exact le_trans (ih x x (List.mem_cons_self x ys)) (le_of_not_lt hle)
        · exact ih x z (List.mem_cons_of_mem x hz'')

/-- The fuelled outer loop permutes the list, for any fuel. -/
theorem sortResultsAux_perm :
    ∀ (fuel : Nat) (l : List TestResult), (sortResultsAux fuel l).Perm l := by
  intro fuel
  induction fuel with
  | zero => intro l; exact List.Perm.refl l
  | succ f ih =>
    intro l
    cases l with
    | nil => exact List.Perm.refl _
    | cons x xs =>
      exact ((ih _).cons _).trans (swapScan_perm x xs)

/-- With enough fuel (the Go loop always has exactly enough) the
outer loop leaves the list sorted by case number. -/
theorem sortResultsAux_sorted :
    ∀ (fuel : Nat) (l : List TestResult), l.length ≤ fuel →
      (sortResultsAux fuel l).Pairwise (fun a b => a.CaseNumber ≤ b.CaseNumber) := by
  intro fuel
  induction fuel with
  | zero =>
    intro l hl
    rw [Nat.le_zero, List.length_eq_zero] at hl
    subst hl
    exact List.Pairwise.nil
  | succ f ih =>
    intro l hl
    cases l with
    | nil => exact List.Pairwise.nil
    | cons x xs =>
      rw [sortResultsAux]
      refine List.Pairwise.cons ?_ (ih _ ?_)
      · intro z hz
        have hzt : z ∈ (swapScan x xs).2 := (sortResultsAux_perm f _).mem_iff.mp hz
        have hzc : z ∈ x :: xs :=
          (swapScan_perm x xs).mem_iff.mp (List.mem_cons_of_mem _ hzt)
        exact swapScan_min x xs z hzc
      · rw [swapScan_length]
        exact Nat.succ_le_succ_iff.mp hl

/-- C8: completion order across workers is unspecified, so the
collected results are some permutation of the per-job results; with
pairwise-distinct case numbers, `sortResults` restores an ascending
(strictly, by distinctness) ordering of exactly that collection, and
exactly one result exists per dispatched job. -/
theorem c8_collator_sorts :
    ∀ (jobs : List Job) (exec : Job → TestResult) (collected : List TestResult),
      collected.Perm (jobs.map exec) →
      ((jobs.map exec).map TestResult.CaseNumber).Nodup →
      collected.length = jobs.length ∧
      (sortResults collected).Perm (jobs.map exec) ∧
      (sortResults collected).Pairwise (fun a b => a.CaseNumber < b.CaseNumber) := by
  intro jobs exec collected hperm hnodup
  have hsp : (sortResults collected).Perm (jobs.map exec) :=
    (sortResultsAux_perm _ _).trans hperm
  refine ⟨by rw [hperm.length_eq, List.length_map], hsp, ?_⟩
  have hsorted := sortResultsAux_sorted collected.length collected (le_refl _)
  have hnd : ((sortResults collected).map TestResult.CaseNumber).Nodup :=
    (hsp.map TestResult.CaseNumber).nodup_iff.mpr hnodup
  have hne : (sortResults collected).Pairwise
      (fun a b => a.CaseNumber ≠ b.CaseNumber) := List.pairwise_map.mp hnd
  exact (hsorted.and hne).imp fun h => lt_of_le_of_ne h.1 h.2

/-- Witness for `c8_collator_sorts`: two jobs, collected out of
order. -/
theorem c8_collator_sorts_witness :
    ([exec8 { caseNum := 2, row := [] }, exec8 { caseNum := 3, row := [] }]).Perm
        (jobs8.map exec8) ∧
    ((jobs8.map exec8).map TestResult.CaseNumber).Nodup ∧
    (sortResults [exec8 { caseNum := 2, row := [] }, exec8 { caseNum := 3, row := [] }]).Pairwise
      (fun a b => a.CaseNumber < b.CaseNumber) :=
  ⟨List.Perm.swap _ _ _, by decide,
    (c8_collator_sorts jobs8 exec8 _ (List.Perm.swap _ _ _) (by decide)).2.2⟩

/-- C4 amended: the globals are captured exactly once — from the first
row whose method cell is a recognized verb and that has at least 2
cells (whether or not that row qualifies as a test case): its token
cell seeds the fallback token when the row has at least 11 cells, its
global-headers cell seeds the fallback mapping when present and valid;
rows after it (the `post` segment) never influence the captured
values. -/
theorem c4_globals_first_method_row :
    ∀ (ph : String → Option (List (String × String))) (pre : List (List String))
      (r : List String) (post : List (List String)),
      (∀ row ∈ pre, row.length < 2 ∨ isHTTPMethod (row.getD 1 "") = false) →
      2 ≤ r.length →
      isHTTPMethod (r.getD 1 "") = true →
      initGlobalConfig ph (pre ++ r :: post) = captureGlobals ph r := by
  intro ph pre r post hpre hr2 hrm
  induction pre with
  | nil =>
    have hc : (decide (r.length < 2) || !isHTTPMethod (r.getD 1 "")) = false := by
      rw [hrm]
      simp [Nat.not_lt.mpr hr2]
    rw [List.nil_append]
    simp only [initGlobalConfig]
    rw [hc, if_neg (by simp)]
  | cons p ps ih =>
    have hp := hpre p (List.mem_cons_self p ps)
    have hc : (decide (p.length < 2) || !isHTTPMethod (p.getD 1 "")) = true := by
      rcases hp with h | h
      · simp [h]
      · rw [h]
        simp
    rw [List.cons_append]
    simp only [initGlobalConfig]
    rw [hc, if_pos rfl]
    exact ih fun row hrow => hpre row (List.mem_cons_of_mem p hrow)

/-- Witness for `c4_globals_first_method_row`: one non-method row, then
`rFull`, then a later row that is ignored. -/
theorem c4_globals_first_method_row_witness :
    (∀ row ∈ [["x"]], row.length < 2 ∨ isHTTPMethod (row.getD 1 "") = false) ∧
    2 ≤ rFull.length ∧
    isHTTPMethod (rFull.getD 1 "") = true ∧
    initGlobalConfig phNone ([["x"]] ++ rFull :: [rPost]) = captureGlobals phNone rFull :=
  ⟨by decide, by decide, by decide,
    c4_globals_first_method_row phNone [["x"]] rFull [rPost] (by decide) (by decide) (by decide)⟩

/-- The upward scan returns the nearest non-empty base-URL column at or
below index `i`, or `""` when every row at or below `i` has an empty
one. -/
theorem scanUp_spec (rows : List (List String)) (i : Nat) :
    (scanUp rows i ≠ "" ∧
      ∃ j, j ≤ i ∧ rowBase (rows.getD j []) = scanUp rows i ∧
        ∀ k, j < k → k ≤ i → rowBase (rows.getD k []) = "") ∨
    (scanUp rows i = "" ∧ ∀ j, j ≤ i → rowBase (rows.getD j []) = "") := by
  induction i with
  | zero =>
    by_cases h : rowBase (rows.getD 0 []) = ""
    · right
      refine ⟨h, fun j hj => ?_⟩
      rw [Nat.le_zero] at hj
      subst hj
      exact h
    · left
      refine ⟨h, 0, le_refl 0, rfl, fun k hk hk0 => absurd (lt_of_lt_of_le hk hk0) (lt_irrefl 0)⟩
  | succ i ih =>
    by_cases h : rowBase (rows.getD (i + 1) []) = ""
    · have hstep : scanUp rows (i + 1) = scanUp rows i := by
        rw [scanUp, h]
        simp
      rcases ih with ⟨hne, j, hj, heq, hmax⟩ | ⟨hz, hall⟩
      · left
        refine ⟨hstep ▸ hne, j, le_trans hj (Nat.le_succ i), hstep ▸ heq, ?_⟩
        intro k hjk hki
        rcases lt_or_eq_of_le hki with hk | hk
        · exact hmax k hjk (Nat.lt_succ_iff.mp hk)
        · rw [hk]
          exact h
      · right
        refine ⟨hstep ▸ hz, fun j hj => ?_⟩
        rcases lt_or_eq_of_le hj with hk | hk
        · exact hall j (Nat.lt_succ_iff.mp hk)
        · rw [hk]
          exact h
    · left
      have hstep : scanUp rows (i + 1) = rowBase (rows.getD (i + 1) []) := by
        rw [scanUp]
        have hb : (rowBase (rows.getD (i + 1) []) != "") = true := by
          rw [bne_iff_ne]
          exact h
        rw [hb, if_pos rfl]
      refine ⟨hstep ▸ h, i + 1, le_refl _, hstep.symm, ?_⟩
      intro k hk hki
      exact absurd (lt_of_lt_of_le hk hki) (lt_irrefl _)

/-- When a row resolves to a case and its own base-URL column is empty,
the resolved base URL is `findFirstBaseURL`'s answer, defaulted to the
configured base URL when that answer is empty. -/
theorem parseRow_case_base :
    ∀ (ph : String → Option (List (String × String))) (st : Runner) (row : List String)
      (tc : TestCase),
      parseRow ph st row = .case tc → rowBase row = "" →
      tc.BaseURL =
        if findFirstBaseURL st (row.getD 0 "") = "" then st.config.BaseURL
        else findFirstBaseURL st (row.getD 0 "") := by
  intro ph st row tc h hbase
  have hcond : (decide (row.length ≥ 10) && (row.getD 9 "" != "")) = false := by
    by_contra hne
    have ht : (decide (row.length ≥ 10) && (row.getD 9 "" != "")) = true :=
      eq_true_of_ne_false hne
    have h9 : (row.getD 9 "" != "") = true := by
      rw [Bool.and_eq_true] at ht
      exact ht.2
    rw [rowBase, if_pos ht] at hbase
    rw [hbase] at h9
    simp at h9
  simp only [parseRow] at h
  split at h
  · exact RowOutcome.noConfusion h
  · split at h
    · exact RowOutcome.noConfusion h
    · split at h
      · exact RowOutcome.noConfusion h
      · rw [hcond] at h
        simp only [Bool.false_eq_true, if_false] at h
        split at h
        · exact RowOutcome.noConfusion h
        · rw [← RowOutcome.case.inj h]

/-- C3 amended: for a resolved case whose base-URL column is empty, the
resolved base URL is found by locating the first data row bearing the
case's name and scanning upward from it through ALL rows (qualifying or
not): it equals the nearest non-empty base-URL column at or above that
position, and when every row there has an empty one it equals the
configured default. -/
theorem c3_base_url_nearest_any_row :
    ∀ (ph : String → Option (List (String × String))) (st : Runner) (row : List String)
      (tc : TestCase) (i : Nat),
      parseRow ph st row = .case tc →
      rowBase row = "" →
      (st.allRows.drop 1).findIdx?
          (fun r => r.length > 0 && r.getD 0 "" == row.getD 0 "") = some i →
      (tc.BaseURL ≠ "" ∧
        ∃ j, j ≤ i ∧ rowBase ((st.allRows.drop 1).getD j []) = tc.BaseURL ∧
          ∀ k, j < k → k ≤ i → rowBase ((st.allRows.drop 1).getD k []) = "") ∨
      ((∀ j, j ≤ i → rowBase ((st.allRows.drop 1).getD j []) = "") ∧
        tc.BaseURL = st.config.BaseURL) := by
  intro ph st row tc i hcase hbase hidx
  have hres := parseRow_case_base ph st row tc hcase hbase
  have hff : findFirstBaseURL st (row.getD 0 "") = scanUp (st.allRows.drop 1) i := by
    have hne : (st.allRows.drop 1).isEmpty = false := by
      cases hrows : st.allRows.drop 1 with
      | nil =>
          rw [hrows] at hidx
          exact absurd hidx (by simp [List.findIdx?])
      | cons a l => simp [hrows]
    simp only [findFirstBaseURL]
    rw [hne]
    simp only [Bool.false_eq_true, if_false]
    rw [hidx]
  rcases scanUp_spec (st.allRows.drop 1) i with ⟨hne, j, hj, heq, hmax⟩ | ⟨hz, hall⟩
  · left
    have hbu : tc.BaseURL = scanUp (st.allRows.drop 1) i := by
      rw [hres, hff, if_neg hne]
    rw [hbu]
    exact ⟨hne, j, hj, heq, hmax⟩
  · right
    refine ⟨hall, ?_⟩
    rw [hres, hff, if_pos hz]

/-- Witness for `c3_base_url_nearest_any_row`: a single qualifying row
with an empty base column resolves to the configured default. -/
theorem c3_base_url_nearest_any_row_witness :
    parseRow phNone stW rW = .case tcW ∧
    rowBase rW = "" ∧
    (stW.allRows.drop 1).findIdx?
        (fun r => r.length > 0 && r.getD 0 "" == rW.getD 0 "") = some 0 ∧
    ((tcW.BaseURL ≠ "" ∧
        ∃ j, j ≤ 0 ∧ rowBase ((stW.allRows.drop 1).getD j []) = tcW.BaseURL ∧
          ∀ k, j < k → k ≤ 0 → rowBase ((stW.allRows.drop 1).getD k []) = "") ∨
      ((∀ j, j ≤ 0 → rowBase ((stW.allRows.drop 1).getD j []) = "") ∧
        tcW.BaseURL = stW.config.BaseURL)) :=
  ⟨by decide, by decide, by decide,
    c3_base_url_nearest_any_row phNone stW rW tcW 0 (by decide) (by decide) (by decide)⟩

/-- On a unique-key map, the lookup finds exactly the stored pair. -/
theorem goLookup_eq_some_of_mem :
    ∀ (l : GoMap) (k : String) (v : JsonValue),
      (l.map Prod.fst).Nodup → (k, v) ∈ l → goLookup l k = some v := by
  intro l k v hnd hmem
  induction l with
  | nil => exact absurd hmem (List.not_mem_nil _)
  | cons kv rest ih =>
    obtain ⟨k1, v1⟩ := kv
    rw [List.map_cons, List.nodup_cons] at hnd
    rcases List.mem_cons.mp hmem with heq | hmem'
    · obtain ⟨rfl, rfl⟩ := Prod.mk.injEq .. ▸ heq
      simp [goLookup]
    · have hne : k1 ≠ k := by
        intro hk
        subst hk
        exact hnd.1 (List.mem_map.mpr ⟨_, hmem', rfl⟩)
      rw [goLookup, if_neg hne]
      exact ih hnd.2 hmem'

/-- A successful lookup returns a stored pair. -/
theorem goLookup_mem_of_eq_some :
    ∀ (l : GoMap) (k : String) (v : JsonValue),
      goLookup l k = some v → (k, v) ∈ l := by
  intro l k v h
  induction l with
  | nil => exact absurd h (by simp [goLookup])
  | cons kv rest ih =>
    obtain ⟨k1, v1⟩ := kv
    rw [goLookup] at h
    split at h
    · rename_i hk
      subst hk
      have hv := Option.some.inj h
      subst hv
      exact List.mem_cons_self _ _
    · exact List.mem_cons_of_mem _ (ih h)

/-- A failed lookup means the key is absent. -/
theorem goLookup_eq_none_iff :
    ∀ (l : GoMap) (k : String), goLookup l k = none ↔ k ∉ l.map Prod.fst := by
  intro l k
  induction l with
  | nil => simp [goLookup]
  | cons kv rest ih =>
    obtain ⟨k1, v1⟩ := kv
    rw [goLookup]
    by_cases hk : k1 = k
    · subst hk
      simp
    · rw [if_neg hk]
      simp [ih, Ne.symm hk]

/-- Lookups agree across iteration orders of a unique-key map. -/
theorem goLookup_perm :
    ∀ (l1 l2 : GoMap), l1.Perm l2 → (l1.map Prod.fst).Nodup →
      ∀ k, goLookup l1 k = goLookup l2 k := by
  intro l1 l2 hp hnd k
  cases h : goLookup l1 k with
  | some v =>
    exact (goLookup_eq_some_of_mem l2 k v ((hp.map Prod.fst).nodup_iff.mp hnd)
      (hp.mem_iff.mp (goLookup_mem_of_eq_some l1 k v h))).symm
  | none =>
    cases h2 : goLookup l2 k with
    | none => rfl
    | some v =>
      exfalso
      have hmem := hp.mem_iff.mpr (goLookup_mem_of_eq_some l2 k v h2)
      exact (goLookup_eq_none_iff l1 k).mp h (List.mem_map_of_mem Prod.fst hmem)

/-- The function `validateMap` is the conjunction of its per-key checks. -/
theorem validateFields_eq_all :
    ∀ (rm : String → String → Bool) (afields l : GoMap),
      validateFields rm afields l =
        l.all fun kv =>
          match goLookup afields kv.1 with
          | none => false
          | some av => validateValue rm av kv.2 := by
  intro rm afields l
  induction l with
  | nil => simp [validateFields]
  | cons kv rest ih =>
    obtain ⟨k, ev⟩ := kv
    simp [validateFields, ih]

/-- A Bool-valued `all` only depends on membership. -/
theorem all_of_perm :
    ∀ {α : Type} (l1 l2 : List α) (f : α → Bool),
      l1.Perm l2 → l1.all f = l2.all f := by
  intro α l1 l2 f hp
  cases h2 : l2.all f
  · cases h1 : l1.all f
    · rfl
    · rw [List.all_eq_true] at h1
      have : l2.all f = true := List.all_eq_true.mpr fun x hx => h1 x (hp.mem_iff.mpr hx)
      rw [h2] at this
      exact this.symm
  · rw [List.all_eq_true] at h2 ⊢
    exact fun x hx => h2 x (hp.mem_iff.mp hx)

/-- The loose loop returns `true` exactly when every non-`code` key
check passes. -/
theorem looseLoop_eq_true_iff :
    ∀ (rm : String → String → Bool) (am l : GoMap),
      looseLoop rm am l = some true ↔
        ∀ kv ∈ l, kv.1 = "code" ∨ looseKeyCheck rm am kv.1 kv.2 = some true := by
  intro rm am l
  induction l with
  | nil => simp [looseLoop]
  | cons kv rest ih =>
    obtain ⟨k, ev⟩ := kv
    rw [looseLoop]
    by_cases hk : k = "code"
    · rw [if_pos hk]
      simp only [ih, List.mem_cons]
      constructor
      · rintro h kv' (rfl | hm)
        · exact Or.inl hk
        · exact h kv' hm
      · intro h kv' hm
        exact h kv' (Or.inr hm)
    · rw [if_neg hk]
      cases hc : looseKeyCheck rm am k ev with
      | none =>
        simp only [List.mem_cons]
        constructor
        · intro h
          exact absurd h (by simp)
        · intro h
          rcases h (k, ev) (Or.inl rfl) with h' | h'
          · exact absurd h' hk
          · rw [hc] at h'
            exact absurd h' (by simp)
      | some b =>
        cases b with
        | false =>
          simp only [List.mem_cons]
          constructor
          · intro h
            exact absurd h (by simp)
          · intro h
            rcases h (k, ev) (Or.inl rfl) with h' | h'
            · exact absurd h' hk
            · rw [hc] at h'
              exact absurd h' (by simp)
        | true =>
          simp only [ih, List.mem_cons]
          constructor
          · rintro h kv' (rfl | hm)
            · exact Or.inr hc
            · exact h kv' hm
          · intro h kv' hm
            exact h kv' (Or.inr hm)

/-- A loose-loop verdict of `false` exhibits a failing non-`code`
key. -/
theorem looseLoop_eq_false_exists :
    ∀ (rm : String → String → Bool) (am l : GoMap),
      looseLoop rm am l = some false →
        ∃ kv ∈ l, kv.1 ≠ "code" ∧ looseKeyCheck rm am kv.1 kv.2 = some false := by
  intro rm am l h
  induction l with
  | nil => exact absurd h (by simp [looseLoop])
  | cons kv rest ih =>
    obtain ⟨k, ev⟩ := kv
    rw [looseLoop] at h
    by_cases hk : k = "code"
    · rw [if_pos hk] at h
      obtain ⟨kv', hm, hprop⟩ := ih h
      exact ⟨kv', List.mem_cons_of_mem _ hm, hprop⟩
    · rw [if_neg hk] at h
      cases hc : looseKeyCheck rm am k ev with
      | none =>
        rw [hc] at h
        exact absurd h (by simp)
      | some b =>
        cases b with
        | false => exact ⟨(k, ev), List.mem_cons_self _ _, hk, hc⟩
        | true =>
          rw [hc] at h
          obtain ⟨kv', hm, hprop⟩ := ih h
          exact ⟨kv', List.mem_cons_of_mem _ hm, hprop⟩

/-- C9 amended: whenever two evaluations of the validator on the same
decoded bodies both return a verdict, the verdicts coincide, whatever
iteration order of the (unique-key) expected map each evaluation sees;
whether a verdict is returned at all, however, can depend on that
order (see the counterexample). -/
theorem c9_verdicts_agree :
    ∀ (rm : String → String → Bool) (am em1 em2 : GoMap) (strict : Bool) (b1 b2 : Bool),
      em1.Perm em2 → (em1.map Prod.fst).Nodup →
      validateResponseCore rm am em1 strict = some b1 →
      validateResponseCore rm am em2 strict = some b2 →
      b1 = b2 := by
  intro rm am em1 em2 strict b1 b2 hp hnd h1 h2
  have hcode : goIndex em2 "code" = goIndex em1 "code" := by
    unfold goIndex
    rw [goLookup_perm em1 em2 hp hnd "code"]
  unfold validateResponseCore at h1 h2
  rw [hcode] at h2
  split at h1
  · rename_i hgate
    rw [if_pos hgate] at h2
    rw [Option.some.inj h1.symm, Option.some.inj h2.symm]
  · rename_i hgate
    rw [if_neg hgate] at h2
    cases hq : goEq (goIndex am "code") (goIndex em1 "code") with
    | none =>
      rw [hq] at h1
      exact absurd h1 (by simp)
    | some c =>
      rw [hq] at h1 h2
      cases c with
      | false =>
        simp only [] at h1 h2
        rw [Option.some.inj h1.symm, Option.some.inj h2.symm]
      | true =>
        simp only [] at h1 h2
        cases strict with
        | true =>
          simp only [if_pos] at h1 h2
          have hall : validateFields rm am em1 = validateFields rm am em2 := by
            rw [validateFields_eq_all, validateFields_eq_all]
            exact all_of_perm em1 em2 _ hp
          rw [← Option.some.inj h1, ← Option.some.inj h2, ← hall]
        | false =>
          simp only [Bool.false_eq_true, if_false] at h1 h2
          cases b1 with
          | true =>
            cases b2 with
            | true => rfl
            | false =>
              exfalso
              obtain ⟨kv, hm, hne, hc⟩ := looseLoop_eq_false_exists rm am em2 h2
              rcases (looseLoop_eq_true_iff rm am em1).mp h1 kv (hp.mem_iff.mpr hm)
                  with h' | h'
              · exact hne h'
              · rw [hc] at h'
                exact absurd h' (by simp)
          | false =>
            cases b2 with
            | false => rfl
            | true =>
              exfalso
              obtain ⟨kv, hm, hne, hc⟩ := looseLoop_eq_false_exists rm am em1 h1
              rcases (looseLoop_eq_true_iff rm am em2).mp h2 kv (hp.mem_iff.mp hm)
                  with h' | h'
              · exact hne h'
              · rw [hc] at h'
                exact absurd h' (by simp)

/-- Witness for `c9_verdicts_agree`: both iteration orders of the
witness map return the verdict `false`. -/
theorem c9_verdicts_agree_witness :
    em1W.Perm em2W ∧ (em1W.map Prod.fst).Nodup ∧
    validateResponseCore rm0 amW em1W false = some false ∧
    validateResponseCore rm0 amW em2W false = some false ∧ false = false :=
  ⟨List.Perm.swap _ _ _, by decide, by decide, by decide,
    c9_verdicts_agree rm0 amW em1W em2W false false false (List.Perm.swap _ _ _)
      (by decide) (by decide) (by decide)⟩

end Epi
